import Mathlib

/-!
Verification of the daily-set selection core of `src/app.py`.

The Python source is shallowly embedded:
* `stable_seed` (app.py lines 44-48) is embedded on top of a full
  executable SHA-256 (FIPS 180-4) over byte lists, with Python strings
  modelled as Lean `String`/`List Char`, bytes as `Nat` values `< 256`,
  and `int(h[:8], 16)` as a fold over the first eight hex characters.
* `random.Random(seed)` together with `random.shuffle` is embedded as a
  Fisher-Yates pass (`pyShuffle`) driven by an abstract raw stream
  `g : Nat -> Nat`: the draw with bound `b` at call index `k` is
  `g k % b`.  Each theorem quantifies over the stream (equivalently over
  the seed-to-stream map `G`), so every deterministic PRNG whose
  `randbelow` outputs are a function of the seed and the call history is
  an instance; the concrete Mersenne Twister is one such instance.
* Python list slicing `l[:n]` for an `int` `n` (including negative `n`)
  is embedded as `pyTake`.
* `build_today_set` (app.py lines 423-448) is embedded with its external
  reads made explicit: the fetched pool, the attempted-id set and the
  day string (`today_kst_str()`) become parameters.
* `fetch_attempted_qids` (app.py lines 387-396) is embedded over rows
  carrying an optional `qid` column, with Python truthiness of an
  optional string made explicit.
-/

/-! ## Bytes, UTF-8 and hex characters -/

/-- UTF-8 encoding of a single character, as a list of byte values. -/
def utf8Char (c : Char) : List Nat :=
  let n := c.toNat
  if n < 0x80 then [n]
  else if n < 0x800 then [0xC0 + n / 0x40, 0x80 + n % 0x40]
  else if n < 0x10000 then
    [0xE0 + n / 0x1000, 0x80 + n / 0x40 % 0x40, 0x80 + n % 0x40]
  else
    [0xF0 + n / 0x40000, 0x80 + n / 0x1000 % 0x40, 0x80 + n / 0x40 % 0x40,
      0x80 + n % 0x40]

/-- Concatenation of the images of `f`, used instead of `List.flatMap`. -/
def cmap (f : α → List β) : List α → List β
  | [] => []
  | a :: l => f a ++ cmap f l

/-- UTF-8 encoding of a string (`s.encode("utf-8")` in the source). -/
def utf8 (s : String) : List Nat :=
  cmap utf8Char s.data

/-- Lower-case hexadecimal digit character for a value `< 16`. -/
def hexChar (n : Nat) : Char :=
  if n < 10 then Char.ofNat (48 + n) else Char.ofNat (87 + n)

/-- Numeric value of a lower-case hexadecimal digit character. -/
def hexVal (c : Char) : Nat :=
  if 48 ≤ c.toNat ∧ c.toNat ≤ 57 then c.toNat - 48
  else if 97 ≤ c.toNat ∧ c.toNat ≤ 102 then c.toNat - 87
  else 0

/-- `int(s, 16)` on a plain hexadecimal digit string, over `List Char`. -/
def parseHexL (cs : List Char) : Nat :=
  cs.foldl (fun acc c => 16 * acc + hexVal c) 0

/-! ## SHA-256 (FIPS 180-4) over byte lists -/

/-- Right rotation of a 32-bit word held in a `Nat`. -/
def rotr32 (n x : Nat) : Nat :=
  let y := x % 2 ^ 32
  y / 2 ^ n + y % 2 ^ n * 2 ^ (32 - n)

/-- SHA-256 `Ch(x, y, z)`. -/
def shaCh (x y z : Nat) : Nat :=
  (x &&& y) ^^^ ((x ^^^ 0xFFFFFFFF) &&& z)

/-- SHA-256 `Maj(x, y, z)`. -/
def shaMaj (x y z : Nat) : Nat :=
  (x &&& y) ^^^ (x &&& z) ^^^ (y &&& z)

/-- SHA-256 big sigma 0. -/
def bigSigma0 (x : Nat) : Nat := rotr32 2 x ^^^ rotr32 13 x ^^^ rotr32 22 x

/-- SHA-256 big sigma 1. -/
def bigSigma1 (x : Nat) : Nat := rotr32 6 x ^^^ rotr32 11 x ^^^ rotr32 25 x

/-- SHA-256 small sigma 0. -/
def smallSigma0 (x : Nat) : Nat :=
  rotr32 7 x ^^^ rotr32 18 x ^^^ x % 2 ^ 32 / 2 ^ 3

/-- SHA-256 small sigma 1. -/
def smallSigma1 (x : Nat) : Nat :=
  rotr32 17 x ^^^ rotr32 19 x ^^^ x % 2 ^ 32 / 2 ^ 10

/-- The 64 SHA-256 round constants (FIPS 180-4 section 4.2.2, written
in decimal). -/
def shaK : List Nat :=
  [1116352408, 1899447441, 3049323471, 3921009573, 961987163,
   1508970993, 2453635748, 2870763221, 3624381080, 310598401,
   607225278, 1426881987, 1925078388, 2162078206, 2614888103,
   3248222580, 3835390401, 4022224774, 264347078, 604807628,
   770255983, 1249150122, 1555081692, 1996064986, 2554220882,
   2821834349, 2952996808, 3210313671, 3336571891, 3584528711,
   113926993, 338241895, 666307205, 773529912, 1294757372,
   1396182291, 1695183700, 1986661051, 2177026350, 2456956037,
   2730485921, 2820302411, 3259730800, 3345764771, 3516065817,
   3600352804, 4094571909, 275423344, 430227734, 506948616,
   659060556, 883997877, 958139571, 1322822218, 1537002063,
   1747873779, 1955562222, 2024104815, 2227730452, 2361852424,
   2428436474, 2756734187, 3204031479, 3329325298]

/-- Working state of one SHA-256 compression, eight 32-bit words. -/
structure H8 where
  a : Nat
  b : Nat
  c : Nat
  d : Nat
  e : Nat
  f : Nat
  g : Nat
  h : Nat
deriving Repr, DecidableEq

/-- Initial SHA-256 hash value. -/
def shaH0 : H8 :=
  ⟨1779033703, 3144134277, 1013904242, 2773480762, 1359893119,
   2600822924, 528734635, 1541459225⟩

/-- One SHA-256 round. -/
def shaRound (st : H8) (kt wt : Nat) : H8 :=
  let t1 := (st.h + bigSigma1 st.e + shaCh st.e st.f st.g + kt + wt) % 2 ^ 32
  let t2 := (bigSigma0 st.a + shaMaj st.a st.b st.c) % 2 ^ 32
  ⟨(t1 + t2) % 2 ^ 32, st.a, st.b, st.c, (st.d + t1) % 2 ^ 32, st.e, st.f,
    st.g⟩

/-- Big-endian packing of groups of four bytes into 32-bit words. -/
def toWords : List Nat → List Nat
  | b0 :: b1 :: b2 :: b3 :: rest =>
      (b0 * 2 ^ 24 + b1 * 2 ^ 16 + b2 * 2 ^ 8 + b3) :: toWords rest
  | _ => []

/-- Extension of the 16-word message schedule by `fuel` further words. -/
def extendW (ws : List Nat) : Nat → List Nat
  | 0 => ws
  | fuel + 1 =>
      let t := ws.length
      let nw := (smallSigma1 (ws.getD (t - 2) 0) + ws.getD (t - 7) 0 +
        smallSigma0 (ws.getD (t - 15) 0) + ws.getD (t - 16) 0) % 2 ^ 32
      extendW (ws ++ [nw]) fuel

/-- SHA-256 compression of one 64-byte block into the running hash. -/
def shaCompress (st : H8) (block : List Nat) : H8 :=
  let ws := extendW (toWords block) 48
  let fin := (List.range 64).foldl
    (fun s t => shaRound s (shaK.getD t 0) (ws.getD t 0)) st
  ⟨(st.a + fin.a) % 2 ^ 32, (st.b + fin.b) % 2 ^ 32, (st.c + fin.c) % 2 ^ 32,
   (st.d + fin.d) % 2 ^ 32, (st.e + fin.e) % 2 ^ 32, (st.f + fin.f) % 2 ^ 32,
   (st.g + fin.g) % 2 ^ 32, (st.h + fin.h) % 2 ^ 32⟩

/-- Big-endian bytes of the 64-bit message bit length. -/
def lenBytes64 (n : Nat) : List Nat :=
  [n / 2 ^ 56 % 256, n / 2 ^ 48 % 256, n / 2 ^ 40 % 256, n / 2 ^ 32 % 256,
   n / 2 ^ 24 % 256, n / 2 ^ 16 % 256, n / 2 ^ 8 % 256, n % 256]

/-- SHA-256 padding: `0x80`, zeros to 56 mod 64, then the bit length. -/
def padMsg (msg : List Nat) : List Nat :=
  let L := msg.length
  msg ++ [0x80] ++ List.replicate ((64 - (L + 9) % 64) % 64) 0 ++
    lenBytes64 (8 * L)

/-- Split a byte list into 64-byte chunks; the fuel bounds the number of
chunks and is always instantiated with the list length, which suffices
because every recursive step consumes at least one element. -/
def chunksAux : Nat → List Nat → List (List Nat)
  | 0, _ => []
  | _, [] => []
  | fuel + 1, a :: rest =>
      (a :: rest).take 64 :: chunksAux fuel ((a :: rest).drop 64)

/-- Split a byte list into 64-byte chunks. -/
def chunks64 (l : List Nat) : List (List Nat) :=
  chunksAux l.length l

/-- Big-endian bytes of one 32-bit word. -/
def wordBytes (w : Nat) : List Nat :=
  [w / 2 ^ 24 % 256, w / 2 ^ 16 % 256, w / 2 ^ 8 % 256, w % 256]

/-- SHA-256 digest of a byte list, as a list of 32 byte values. -/
def sha256 (msg : List Nat) : List Nat :=
  let fin := (chunks64 (padMsg msg)).foldl shaCompress shaH0
  cmap wordBytes [fin.a, fin.b, fin.c, fin.d, fin.e, fin.f, fin.g, fin.h]

/-- Lower-case hex digest of a byte list, as a character list
(`hashlib.sha256(...).hexdigest()` seen as a sequence of characters). -/
def sha256hexChars (msg : List Nat) : List Char :=
  cmap (fun b => [hexChar (b / 16), hexChar (b % 16)]) (sha256 msg)

/-! ## `stable_seed` (app.py lines 44-48) -/

/-- Embedding of `stable_seed(*parts)`: join the parts with `"|"`, hash
the UTF-8 bytes with SHA-256, and read the first eight hex-digest
characters as an unsigned integer (`int(h[:8], 16)`). -/
def stable_seed (parts : List String) : Nat :=
  parseHexL ((sha256hexChars (utf8 (String.intercalate "|" parts))).take 8)

/-- Written from the spec's words (section 4.1): join the strings with a
pipe, compute SHA-256 of the UTF-8 encoding of the joined string, and
take the first 8 hex characters of the hex digest, interpreted as an
unsigned integer. -/
def stableSeedSpec (parts : List String) : Nat :=
  let joined := String.intercalate "|" parts
  let digest := sha256hexChars (utf8 joined)
  parseHexL (digest.take 8)

/-! ## Python list slicing and `random.shuffle` -/

/-- Python `l[:n]` for an `int` bound `n`: a nonnegative bound keeps the
first `n` elements, a negative bound drops the last `-n` elements. -/
def pyTake (n : Int) (l : List α) : List α :=
  if 0 ≤ n then l.take n.toNat else l.take (l.length - (-n).toNat)

/-- Exchange the elements at positions `i` and `j` (Python
`x[i], x[j] = x[j], x[i]`); out-of-range positions leave the list
unchanged (they never occur in the shuffle below). -/
def lswap (l : List α) (i j : Nat) : List α :=
  match l[i]?, l[j]? with
  | some x, some y => (l.set i y).set j x
  | _, _ => l

/-- The Fisher-Yates pass of `random.shuffle`: for positions `i` from
`i0` down to `1`, exchange position `i` with position `g k % (i + 1)`,
where `k` is the running draw index into the raw stream `g`.  Returns
the permuted list together with the next draw index. -/
def fyAux (g : Nat → Nat) : Nat → Nat → List α → List α × Nat
  | 0, k, l => (l, k)
  | i + 1, k, l => fyAux g i (k + 1) (lswap l (i + 1) (g k % (i + 2)))

/-- `rng.shuffle(l)` at draw index `k` against the raw stream `g`. -/
def pyShuffle (g : Nat → Nat) (k : Nat) (l : List α) : List α × Nat :=
  fyAux g (l.length - 1) k l

/-! ## Data rows (tables `kanji_writing_sentences`, `kanji_writing_attempts`) -/

/-- One row of the sentence pool, with the columns selected by
`fetch_sentences`.  Only `qid` is inspected by the selector. -/
structure Row where
  qid : String
  bucket : String
  level : String
  sentence : String
  target_kana : String
  answer_kanji : String
  note : Option String
deriving Repr, DecidableEq

/-- One row of the attempts query in `fetch_attempted_qids`, carrying
the selected `qid` column; `none` models a missing or null value. -/
structure AttemptRow where
  qid : Option String
deriving Repr, DecidableEq

/-- Python truthiness of an optional string: `None` and `""` are falsy,
every other string is truthy. -/
def truthyStrOpt : Option String → Bool
  | none => false
  | some s => !(s == "")

/-- Embedding of `fetch_attempted_qids` (app.py lines 387-396) after the
query: `{row["qid"] for row in data if row.get("qid")}`. -/
def fetch_attempted_qids (data : List AttemptRow) : Finset String :=
  ((data.filter fun r => truthyStrOpt r.qid).filterMap fun r => r.qid).toFinset

/-- The comprehension `[r for r in all_rows if r["qid"] not in attempted]`. -/
def freshOf (pool : List Row) (attempted : Finset String) : List Row :=
  pool.filter fun r => decide (r.qid ∉ attempted)

/-- The comprehension `[r for r in all_rows if r["qid"] in attempted]`. -/
def seenOf (pool : List Row) (attempted : Finset String) : List Row :=
  pool.filter fun r => decide (r.qid ∈ attempted)

/-! ## `build_today_set` (app.py lines 423-448)

The embedding makes the function's external reads explicit parameters:
`all_rows` stands for `fetch_sentences(bucket)`, `attempted` for
`fetch_attempted_qids(user_id, bucket)`, and `day` for the value of
`today_kst_str()` at the call.  `G` maps a seed to the raw draw stream
of the PRNG instance `random.Random(seed)`. -/

/-- Embedding of `build_today_set(user_id, bucket, n)`. -/
def build_today_set (G : Nat → Nat → Nat) (user_id day bucket : String)
    (all_rows : List Row) (attempted : Finset String) (n : Int) : List Row :=
  if all_rows.isEmpty then []
  else
    let fresh := freshOf all_rows attempted
    let fallback := seenOf all_rows attempted
    let g := G (stable_seed [user_id, day, bucket])
    let sh1 := pyShuffle g 0 fresh
    let chosen := pyTake n sh1.1
    if (chosen.length : Int) < n then
      let sh2 := pyShuffle g sh1.2 fallback
      pyTake n (chosen ++ pyTake (n - (chosen.length : Int)) sh2.1)
    else
      pyTake n chosen

/-- Written from the reference algorithm in claim C1 / spec section 4.2:
partition the pool into fresh and seen preserving pool order, seed one
PRNG with `stable_seed(learnerId, day, bucket)`, shuffle fresh with that
generator, then shuffle seen with the same generator instance,
concatenate shuffled fresh followed by shuffled seen, and truncate to
the first `count` items. -/
def selectDailySetSpec (G : Nat → Nat → Nat) (learnerId day bucket : String)
    (pool : List Row) (attemptedIds : Finset String) (count : Int) : List Row :=
  let fresh := freshOf pool attemptedIds
  let seen := seenOf pool attemptedIds
  let g := G (stable_seed [learnerId, day, bucket])
  let sh1 := pyShuffle g 0 fresh
  let sh2 := pyShuffle g sh1.2 seen
  (sh1.1 ++ sh2.1).take count.toNat

/-! ## Concrete inputs used by witnesses and counterexamples -/

/-- A raw-stream map that always draws zero; a legitimate instance of
the abstract generator model, used for concrete evaluations. -/
def G0 : Nat → Nat → Nat := fun _ _ => 0

/-- A pool row with the given `qid` and fixed payload fields. -/
def mkRow (q : String) : Row :=
  ⟨q, "beginner", "L1", "s", "k", "a", none⟩

/-- A three-row pool with distinct ids. -/
def pool3 : List Row := [mkRow "a", mkRow "b", mkRow "c"]

/-- A two-row pool whose rows share the id `"x"` but differ elsewhere. -/
def dupPool : List Row :=
  [⟨"x", "beginner", "L1", "s1", "k1", "a1", none⟩,
   ⟨"x", "beginner", "L1", "s2", "k2", "a2", none⟩]

set_option maxRecDepth 100000

example : sha256 (utf8 "abc") =
    [0xba, 0x78, 0x16, 0xbf, 0x8f, 0x01, 0xcf, 0xea, 0x41, 0x41, 0x40, 0xde,
     0x5d, 0xae, 0x22, 0x23, 0xb0, 0x03, 0x61, 0xa3, 0x96, 0x17, 0x7a, 0x9c,
     0xb4, 0x10, 0xff, 0x61, 0xf2, 0x00, 0x15, 0xad] := by
  decide

example : stable_seed ["u1", "2024-01-01", "beginner"] = 429459156 := by
  decide

/-! The next examples replay, against the all-zero stream, outputs of the
Python function under a `random.Random` subclass whose `_randbelow`
always returns `0`. -/

example : build_today_set G0 "u" "d" "b" pool3 ∅ 2 =
    [mkRow "b", mkRow "c"] := by decide

example : build_today_set G0 "u" "d" "b" pool3 ∅ (-1) = [mkRow "b"] := by
  decide

example : build_today_set G0 "u" "d" "b" pool3 ({"b", "c"} : Finset String) 3 =
    [mkRow "a", mkRow "c", mkRow "b"] := by decide

example :
    build_today_set G0 "u" "d" "b"
      [mkRow "a", mkRow "b", mkRow "c", mkRow "d", mkRow "e"]
      ({"c"} : Finset String) 3 = [mkRow "b", mkRow "d", mkRow "e"] := by
  decide

example :
    build_today_set G0 "u" "d" "b" [mkRow "x1", mkRow "x2"]
      ({"x1", "x2"} : Finset String) 10 = [mkRow "x2", mkRow "x1"] := by
  decide

example : build_today_set G0 "u" "d" "b" [] ∅ 10 = [] := by decide

example : build_today_set G0 "u" "d" "b" pool3 ∅ 0 = [] := by decide

/-! ## Permutation facts about the shuffle -/

lemma cons_set_perm {α : Type _} (t : List α) (j : Nat) (x y : α)
    (h : t[j]? = some y) : List.Perm (y :: t.set j x) (x :: t) := by
  induction t generalizing j with
  | nil => simp at h
  | cons a t ih =>
    cases j with
    | zero =>
      simp only [List.getElem?_cons_zero, Option.some.injEq] at h
      rw [h]
      exact List.Perm.swap x y t
    | succ j =>
      simp only [List.getElem?_cons_succ] at h
      show List.Perm (y :: a :: t.set j x) (x :: a :: t)
      exact (List.Perm.swap a y _).trans
        (((ih j h).cons a).trans (List.Perm.swap x a t))

lemma set_set_perm {α : Type _} (l : List α) (i j : Nat) (x y : α)
    (hi : l[i]? = some x) (hj : l[j]? = some y) :
    List.Perm ((l.set i y).set j x) l := by
  induction l generalizing i j with
  | nil => simp at hi
  | cons a t ih =>
    cases i with
    | zero =>
      simp only [List.getElem?_cons_zero, Option.some.injEq] at hi
      cases j with
      | zero =>
        rw [hi]
        exact List.Perm.refl _
      | succ j =>
        simp only [List.getElem?_cons_succ] at hj
        rw [hi]
        exact cons_set_perm t j x y hj
    | succ i =>
      simp only [List.getElem?_cons_succ] at hi
      cases j with
      | zero =>
        simp only [List.getElem?_cons_zero, Option.some.injEq] at hj
        rw [hj]
        exact cons_set_perm t i y x hi
      | succ j =>
        simp only [List.getElem?_cons_succ] at hj
        exact (ih i j hi hj).cons a

lemma lswap_perm {α : Type _} (l : List α) (i j : Nat) :
    List.Perm (lswap l i j) l := by
  unfold lswap
  cases hi : l[i]? with
  | none => exact List.Perm.refl l
  | some x =>
    cases hj : l[j]? with
    | none => exact List.Perm.refl l
    | some y => exact set_set_perm l i j x y hi hj

lemma fyAux_perm {α : Type _} (g : Nat → Nat) :
    ∀ (i k : Nat) (l : List α), List.Perm (fyAux g i k l).1 l := by
  intro i
  induction i with
  | zero => intro k l; exact List.Perm.refl l
  | succ i ih =>
    intro k l
    exact (ih (k + 1) _).trans (lswap_perm l (i + 1) (g k % (i + 2)))

lemma pyShuffle_perm {α : Type _} (g : Nat → Nat) (k : Nat) (l : List α) :
    List.Perm (pyShuffle g k l).1 l :=
  fyAux_perm g (l.length - 1) k l

lemma pyShuffle_length {α : Type _} (g : Nat → Nat) (k : Nat) (l : List α) :
    (pyShuffle g k l).1.length = l.length :=
  (pyShuffle_perm g k l).length_eq

/-! ## Facts about `pyTake` -/

lemma pyTake_eq_take {α : Type _} (n : Int) (l : List α) :
    pyTake n l =
      l.take (if 0 ≤ n then n.toNat else l.length - (-n).toNat) := by
  unfold pyTake
  split <;> rfl

lemma pyTake_sublist {α : Type _} (n : Int) (l : List α) :
    List.Sublist (pyTake n l) l := by
  rw [pyTake_eq_take]
  exact List.take_sublist _ l

lemma pyTake_subset {α : Type _} (n : Int) (l : List α) :
    pyTake n l ⊆ l :=
  (pyTake_sublist n l).subset

lemma pyTake_length {α : Type _} (n : Int) (l : List α) :
    (pyTake n l).length =
      min (if 0 ≤ n then n.toNat else l.length - (-n).toNat) l.length := by
  rw [pyTake_eq_take, List.length_take]

lemma pyTake_of_nonneg {α : Type _} {n : Int} (h : 0 ≤ n) (l : List α) :
    pyTake n l = l.take n.toNat := by
  simp [pyTake, h]

/-! ## Facts about the fresh/seen partition -/

lemma freshOf_append_seenOf_perm (pool : List Row) (att : Finset String) :
    List.Perm (freshOf pool att ++ seenOf pool att) pool := by
  have h := List.filter_append_perm (fun r => decide (r.qid ∉ att)) pool
  simpa [freshOf, seenOf, decide_not] using h

lemma length_freshOf_add_seenOf (pool : List Row) (att : Finset String) :
    (freshOf pool att).length + (seenOf pool att).length = pool.length := by
  have h := (freshOf_append_seenOf_perm pool att).length_eq
  simpa using h

lemma mem_freshOf_iff {pool : List Row} {att : Finset String} {r : Row} :
    r ∈ freshOf pool att ↔ r ∈ pool ∧ r.qid ∉ att := by
  simp [freshOf]

lemma mem_seenOf_iff {pool : List Row} {att : Finset String} {r : Row} :
    r ∈ seenOf pool att ↔ r ∈ pool ∧ r.qid ∈ att := by
  simp [seenOf]

/-- `Subperm` is preserved by `map` (small helper not in this Mathlib). -/
lemma subperm_map {α β : Type _} (f : α → β) {l1 l2 : List α}
    (h : List.Subperm l1 l2) : List.Subperm (l1.map f) (l2.map f) := by
  rcases h with ⟨w, hw, hs⟩
  exact ⟨w.map f, hw.map f, hs.map f⟩

/-- A subpermutation of a duplicate-free list is duplicate-free. -/
lemma subperm_nodup {α : Type _} {l1 l2 : List α}
    (h : List.Subperm l1 l2) (h2 : l2.Nodup) : l1.Nodup := by
  rcases h with ⟨w, hw, hs⟩
  exact hw.nodup_iff.mp (h2.sublist hs)

/-! ## Range facts about the hex digest -/

lemma mem_cmap {α β : Type _} {f : α → List β} {b : β} :
    ∀ {l : List α}, b ∈ cmap f l ↔ ∃ a ∈ l, b ∈ f a
  | [] => by simp [cmap]
  | a :: l => by simp [cmap, @mem_cmap α β f b l]

lemma mem_wordBytes_lt {b w : Nat} (h : b ∈ wordBytes w) : b < 256 := by
  simp only [wordBytes, List.mem_cons, List.not_mem_nil, or_false] at h
  rcases h with h | h | h | h <;> subst h <;>
    exact Nat.mod_lt _ (by norm_num)

lemma sha256_byte_lt {msg : List Nat} {b : Nat} (h : b ∈ sha256 msg) :
    b < 256 := by
  unfold sha256 at h
  rcases mem_cmap.mp h with ⟨w, _, hw⟩
  exact mem_wordBytes_lt hw

lemma hexVal_hexChar_lt {m : Nat} (h : m < 16) : hexVal (hexChar m) < 16 := by
  interval_cases m <;> decide

lemma sha256hexChars_val_lt {msg : List Nat} {c : Char}
    (h : c ∈ sha256hexChars msg) : hexVal c < 16 := by
  unfold sha256hexChars at h
  rcases mem_cmap.mp h with ⟨b, hb, hc⟩
  have hblt : b < 256 := sha256_byte_lt hb
  simp only [List.mem_cons, List.not_mem_nil, or_false] at hc
  rcases hc with hc | hc <;> subst hc
  · exact hexVal_hexChar_lt (by omega)
  · exact hexVal_hexChar_lt (Nat.mod_lt _ (by norm_num))

lemma hex_foldl_lt :
    ∀ (cs : List Char) (acc : Nat), (∀ c ∈ cs, hexVal c < 16) →
      cs.foldl (fun acc c => 16 * acc + hexVal c) acc <
        (acc + 1) * 16 ^ cs.length
  | [], acc, _ => by simp
  | c :: cs, acc, h => by
    have hc : hexVal c < 16 := h c (List.mem_cons_self c cs)
    have h1 := hex_foldl_lt cs (16 * acc + hexVal c)
      (fun x hx => h x (List.mem_cons_of_mem c hx))
    have h2 : (16 * acc + hexVal c + 1) * 16 ^ cs.length ≤
        (acc + 1) * 16 ^ (c :: cs).length := by
      have hle : 16 * acc + hexVal c + 1 ≤ (acc + 1) * 16 := by omega
      calc (16 * acc + hexVal c + 1) * 16 ^ cs.length
          ≤ (acc + 1) * 16 * 16 ^ cs.length := Nat.mul_le_mul_right _ hle
        _ = (acc + 1) * 16 ^ (c :: cs).length := by
            rw [List.length_cons, pow_succ]
            ring
    calc (c :: cs).foldl (fun acc c => 16 * acc + hexVal c) acc
        = cs.foldl (fun acc c => 16 * acc + hexVal c)
            (16 * acc + hexVal c) := rfl
      _ < (16 * acc + hexVal c + 1) * 16 ^ cs.length := h1
      _ ≤ (acc + 1) * 16 ^ (c :: cs).length := h2

lemma parseHexL_lt {cs : List Char} (h : ∀ c ∈ cs, hexVal c < 16)
    (hlen : cs.length ≤ 8) : parseHexL cs < 2 ^ 32 := by
  have h1 := hex_foldl_lt cs 0 h
  have h2 : 16 ^ cs.length ≤ 16 ^ 8 :=
    Nat.pow_le_pow_right (by norm_num) hlen
  have : parseHexL cs < 16 ^ 8 := by
    unfold parseHexL
    calc cs.foldl (fun acc c => 16 * acc + hexVal c) 0
        < (0 + 1) * 16 ^ cs.length := h1
      _ = 16 ^ cs.length := by ring
      _ ≤ 16 ^ 8 := h2
  omega

/-! ## Claim theorems -/

/-- C2: for every sequence of input strings, `stable_seed` returns
exactly the integer obtained by joining the strings with the pipe
character, hashing the UTF-8 encoding of the joined string with
SHA-256, and interpreting the first 8 hex characters of the hex digest
as an unsigned integer; the result always lies in `[0, 2^32)` (the lower
bound is inherent to `Nat`). -/
theorem stable_seed_correct (parts : List String) :
    stable_seed parts = stableSeedSpec parts ∧
      stable_seed parts < 2 ^ 32 := by
  refine ⟨rfl, ?_⟩
  unfold stable_seed
  refine parseHexL_lt (fun c hc => ?_) ?_
  · exact sha256hexChars_val_lt (List.take_subset 8 _ hc)
  · simp

/-- C3: the selection is deterministic — for a fixed tuple of learner
id, day, bucket, pool, attempted set and count, any two invocations of
`build_today_set` (against the same deterministic PRNG model `G`) yield
identical output lists; the embedding takes no other input, so there is
no hidden dependence on time or environment. -/
theorem build_today_set_deterministic (G : Nat → Nat → Nat)
    (u1 u2 d1 d2 b1 b2 : String) (p1 p2 : List Row) (a1 a2 : Finset String)
    (n1 n2 : Int) (hu : u1 = u2) (hd : d1 = d2) (hb : b1 = b2) (hp : p1 = p2)
    (ha : a1 = a2) (hn : n1 = n2) :
    build_today_set G u1 d1 b1 p1 a1 n1 =
      build_today_set G u2 d2 b2 p2 a2 n2 := by
  subst hu hd hb hp ha hn
  rfl

theorem build_today_set_deterministic_witness :
    build_today_set G0 "u1" "2024-01-01" "beginner" pool3 ∅ 3 =
      build_today_set G0 "u1" "2024-01-01" "beginner" pool3 ∅ 3 :=
  build_today_set_deterministic G0 "u1" "u1" "2024-01-01" "2024-01-01"
    "beginner" "beginner" pool3 pool3 ∅ ∅ 3 3 rfl rfl rfl rfl rfl rfl

/-- The branch structure of `build_today_set` computes, for a positive
count, exactly the truncated concatenation used by the reference
algorithm; `a` stands for the shuffled fresh list and `b` for the
shuffled seen list. -/
lemma build_branch_eq {α : Type _} (n : Int) (hn : 1 ≤ n) (a b : List α) :
    (if ((pyTake n a).length : Int) < n then
        pyTake n (pyTake n a ++ pyTake (n - ((pyTake n a).length : Int)) b)
      else pyTake n (pyTake n a)) = (a ++ b).take n.toNat := by
  have hn0 : (0 : Int) ≤ n := by omega
  rw [pyTake_of_nonneg hn0 a]
  by_cases hlt : a.length < n.toNat
  · have ha : a.take n.toNat = a := List.take_of_length_le (by omega)
    rw [ha, if_pos (by omega)]
    have h2 : pyTake (n - ((a.length : Nat) : Int)) b =
        b.take (n.toNat - a.length) := by
      rw [pyTake_of_nonneg (by omega)]
      congr 1
      omega
    rw [h2, pyTake_of_nonneg hn0]
    have h3 : (a ++ b.take (n.toNat - a.length)).length ≤ n.toNat := by
      simp only [List.length_append, List.length_take]
      omega
    rw [List.take_of_length_le h3, List.take_append_eq_append_take, ha]
  · have hnl : ¬ (((a.take n.toNat).length : Int) < n) := by
      simp only [List.length_take]
      omega
    rw [if_neg hnl, pyTake_of_nonneg hn0, List.take_take, min_self,
      List.take_append_eq_append_take]
    have h0 : n.toNat - a.length = 0 := by omega
    rw [h0]
    simp

/-- For a nonempty pool and a positive count, `build_today_set` equals
the truncated concatenation of the two shuffled partitions. -/
lemma build_eq_take (G : Nat → Nat → Nat) (u day bucket : String)
    (pool : List Row) (att : Finset String) (n : Int) (hp : pool ≠ [])
    (hn : 1 ≤ n) :
    build_today_set G u day bucket pool att n =
      ((pyShuffle (G (stable_seed [u, day, bucket])) 0 (freshOf pool att)).1
        ++ (pyShuffle (G (stable_seed [u, day, bucket]))
            (pyShuffle (G (stable_seed [u, day, bucket])) 0
              (freshOf pool att)).2 (seenOf pool att)).1).take n.toNat := by
  simp only [build_today_set]
  rw [if_neg (by simp [List.isEmpty_iff, hp])]
  exact build_branch_eq n hn _ _

/-- Abstract form of `build_eq_take`: the output is a truncated
concatenation of a permutation of the fresh rows and a permutation of
the seen rows. -/
lemma build_eq_take_perm (G : Nat → Nat → Nat) (u day bucket : String)
    (pool : List Row) (att : Finset String) (n : Int) (hp : pool ≠ [])
    (hn : 1 ≤ n) :
    ∃ sf ss : List Row,
      build_today_set G u day bucket pool att n = (sf ++ ss).take n.toNat ∧
      List.Perm sf (freshOf pool att) ∧ List.Perm ss (seenOf pool att) :=
  ⟨_, _, build_eq_take G u day bucket pool att n hp hn,
    pyShuffle_perm _ _ _, pyShuffle_perm _ _ _⟩

lemma pyTake_zero {α : Type _} (l : List α) : pyTake 0 l = [] := by
  simp [pyTake]

/-- An empty pool yields an empty selection. -/
lemma build_today_set_nil (G : Nat → Nat → Nat) (u day bucket : String)
    (att : Finset String) (n : Int) :
    build_today_set G u day bucket [] att n = [] := rfl

/-- A zero count yields an empty selection. -/
lemma build_today_set_zero (G : Nat → Nat → Nat) (u day bucket : String)
    (pool : List Row) (att : Finset String) :
    build_today_set G u day bucket pool att 0 = [] := by
  by_cases hp : pool = []
  · subst hp
    rfl
  · simp only [build_today_set]
    rw [if_neg (by simp [List.isEmpty_iff, hp])]
    simp [pyTake_zero]

/-- For every count, the output splits as a subpermutation of the fresh
rows followed by a subpermutation of the seen rows. -/
lemma build_sublists (G : Nat → Nat → Nat) (u day bucket : String)
    (pool : List Row) (att : Finset String) (n : Int) :
    ∃ l1 l2 : List Row,
      build_today_set G u day bucket pool att n = l1 ++ l2 ∧
      List.Subperm l1 (freshOf pool att) ∧
      List.Subperm l2 (seenOf pool att) := by
  by_cases hp : pool = []
  · exact ⟨[], [], by rw [hp]; rfl, List.nil_subperm, List.nil_subperm⟩
  · simp only [build_today_set]
    rw [if_neg (by simp [List.isEmpty_iff, hp])]
    have hsf : List.Subperm
        (pyShuffle (G (stable_seed [u, day, bucket])) 0
          (freshOf pool att)).1 (freshOf pool att) :=
      (pyShuffle_perm _ _ _).subperm
    have hss : List.Subperm
        (pyShuffle (G (stable_seed [u, day, bucket]))
          (pyShuffle (G (stable_seed [u, day, bucket])) 0
            (freshOf pool att)).2 (seenOf pool att)).1 (seenOf pool att) :=
      (pyShuffle_perm _ _ _).subperm
    split
    · rw [pyTake_eq_take, List.take_append_eq_append_take]
      refine ⟨_, _, rfl, ?_, ?_⟩
      · exact ((List.take_sublist _ _).trans
          (pyTake_sublist _ _)).subperm.trans hsf
      · exact ((List.take_sublist _ _).trans
          (pyTake_sublist _ _)).subperm.trans hss
    · refine ⟨pyTake n (pyTake n _), [], (List.append_nil _).symm, ?_,
        List.nil_subperm⟩
      exact ((pyTake_sublist _ _).trans (pyTake_sublist _ _)).subperm.trans
        hsf

/-- C1: for every pool, attempted set, learner id, day string, bucket
and count at least one, `build_today_set` returns exactly the reference
algorithm's selection: partition into fresh and seen in pool order, seed
one generator with `stable_seed(learnerId, day, bucket)`, shuffle fresh
then seen with that single generator, concatenate and truncate to
`count`.  The theorem holds for every raw-stream model `G` of the
generator, hence in particular for the Mersenne Twister stream the
source uses. -/
theorem build_today_set_eq_spec (G : Nat → Nat → Nat)
    (u day bucket : String) (pool : List Row) (att : Finset String)
    (n : Int) (hn : 1 ≤ n) :
    build_today_set G u day bucket pool att n =
      selectDailySetSpec G u day bucket pool att n := by
  by_cases hp : pool = []
  · subst hp
    simp [build_today_set, selectDailySetSpec, freshOf, seenOf, pyShuffle,
      fyAux]
  · rw [build_eq_take G u day bucket pool att n hp hn]
    rfl

theorem build_today_set_eq_spec_witness :
    build_today_set G0 "u1" "2024-01-01" "beginner" pool3 ∅ 2 =
      selectDailySetSpec G0 "u1" "2024-01-01" "beginner" pool3 ∅ 2 :=
  build_today_set_eq_spec G0 "u1" "2024-01-01" "beginner" pool3 ∅ 2
    (by decide)

/-- C4: freshness preference — whenever the number of fresh rows is at
least the requested count, every selected row's id is outside the
attempted set. -/
theorem build_today_set_fresh_preference (G : Nat → Nat → Nat)
    (u day bucket : String) (pool : List Row) (att : Finset String)
    (n : Int) (h : n ≤ ((freshOf pool att).length : Int)) :
    ∀ r ∈ build_today_set G u day bucket pool att n, r.qid ∉ att := by
  intro r hr
  by_cases hp : pool = []
  · rw [hp, build_today_set_nil] at hr
    simp at hr
  · rw [show build_today_set G u day bucket pool att n =
        pyTake n (pyTake n (pyShuffle (G (stable_seed [u, day, bucket])) 0
          (freshOf pool att)).1) from ?_] at hr
    · have h1 : r ∈ (pyShuffle (G (stable_seed [u, day, bucket])) 0
          (freshOf pool att)).1 :=
        pyTake_subset _ _ (pyTake_subset _ _ hr)
      have h2 : r ∈ freshOf pool att :=
        (pyShuffle_perm _ _ _).mem_iff.mp h1
      exact (mem_freshOf_iff.mp h2).2
    · simp only [build_today_set]
      rw [if_neg (by simp [List.isEmpty_iff, hp])]
      rw [if_neg ?_]
      have hlen : (pyShuffle (G (stable_seed [u, day, bucket])) 0
          (freshOf pool att)).1.length = (freshOf pool att).length :=
        pyShuffle_length _ _ _
      by_cases h0 : (0 : Int) ≤ n
      · rw [pyTake_of_nonneg h0, List.length_take]
        omega
      · rw [pyTake_eq_take]
        omega

theorem build_today_set_fresh_preference_witness :
    (mkRow "c").qid ∉ (∅ : Finset String) :=
  build_today_set_fresh_preference G0 "u1" "2024-01-01" "beginner" pool3 ∅ 2
    (by decide) (mkRow "c") (by decide)

/-- C5: fallback fill — when fewer than `count` fresh rows exist but the
pool is big enough, the output is, up to order, all the fresh rows plus
exactly `count - len(fresh)` rows taken from the seen rows. -/
theorem build_today_set_fallback_fill (G : Nat → Nat → Nat)
    (u day bucket : String) (pool : List Row) (att : Finset String)
    (n : Int) (h1 : ((freshOf pool att).length : Int) < n)
    (h2 : n ≤ (pool.length : Int)) :
    ∃ extra : List Row,
      List.Perm (build_today_set G u day bucket pool att n)
        (freshOf pool att ++ extra) ∧
      (extra.length : Int) = n - ((freshOf pool att).length : Int) ∧
      ∀ r ∈ extra, r ∈ seenOf pool att := by
  have hn : (1 : Int) ≤ n := by omega
  have hp : pool ≠ [] := by
    intro e
    rw [e] at h2
    simp at h2
    omega
  obtain ⟨sf, ss, hbuild, hsf, hss⟩ :=
    build_eq_take_perm G u day bucket pool att n hp hn
  have hsfl : sf.length = (freshOf pool att).length := hsf.length_eq
  have hssl : ss.length = (seenOf pool att).length := hss.length_eq
  have hsum := length_freshOf_add_seenOf pool att
  refine ⟨ss.take (n.toNat - sf.length), ?_, ?_, ?_⟩
  · rw [hbuild, List.take_append_eq_append_take,
      List.take_of_length_le (by omega)]
    exact hsf.append_right _
  · simp only [List.length_take]
    omega
  · intro r hr
    exact hss.mem_iff.mp (List.take_subset _ _ hr)

theorem build_today_set_fallback_fill_witness :
    ∃ extra : List Row,
      List.Perm
        (build_today_set G0 "u1" "2024-01-01" "beginner" pool3
          ({"a", "b", "c"} : Finset String) 2)
        (freshOf pool3 ({"a", "b", "c"} : Finset String) ++ extra) ∧
      (extra.length : Int) =
        2 - ((freshOf pool3 ({"a", "b", "c"} : Finset String)).length : Int) ∧
      ∀ r ∈ extra, r ∈ seenOf pool3 ({"a", "b", "c"} : Finset String) :=
  build_today_set_fallback_fill G0 "u1" "2024-01-01" "beginner" pool3
    ({"a", "b", "c"} : Finset String) 2 (by decide) (by decide)

/-- For a nonnegative count the output length is exactly
`min count (pool length)`, duplicates or not. -/
lemma build_length (G : Nat → Nat → Nat) (u day bucket : String)
    (pool : List Row) (att : Finset String) (n : Int) (hn : 0 ≤ n) :
    (build_today_set G u day bucket pool att n).length =
      min n.toNat pool.length := by
  rcases eq_or_lt_of_le hn with he | hlt
  · rw [show n = (0 : Int) from he.symm, build_today_set_zero]
    simp
  · by_cases hp : pool = []
    · rw [hp, build_today_set_nil]
      simp
    · obtain ⟨sf, ss, hbuild, hsf, hss⟩ :=
        build_eq_take_perm G u day bucket pool att n hp (by omega)
      have h1 := hsf.length_eq
      have h2 := hss.length_eq
      have h3 := length_freshOf_add_seenOf pool att
      rw [hbuild, List.length_take, List.length_append]
      omega

/-- C6 (amended: nonnegative count): the output length is at most
`count`, and equals `min count (pool length)` when the pool has no
internal duplicate ids.  The original claim's unrestricted form fails
for negative counts, see the counterexample. -/
theorem build_today_set_bound (G : Nat → Nat → Nat)
    (u day bucket : String) (pool : List Row) (att : Finset String)
    (n : Int) (hn : 0 ≤ n) :
    ((build_today_set G u day bucket pool att n).length : Int) ≤ n ∧
      ((pool.map Row.qid).Nodup →
        ((build_today_set G u day bucket pool att n).length : Int) =
          min n (pool.length : Int)) := by
  have key := build_length G u day bucket pool att n hn
  constructor
  · rw [key]
    omega
  · intro _
    rw [key]
    omega

/-- C6 counterexample: at count `-1` on a three-row pool with no
duplicate ids and nothing attempted, the selection has length `1`, so
`len(output) <= count` fails as stated. -/
theorem build_today_set_bound_cex :
    ¬ (((build_today_set G0 "u3" "2024-06-03" "beginner" pool3 ∅
        (-1)).length : Int) ≤ -1) := by
  decide

theorem build_today_set_bound_witness :
    ((build_today_set G0 "u1" "2024-01-01" "beginner" pool3 ∅ 2).length :
      Int) = min 2 ((pool3.length : Int)) :=
  (build_today_set_bound G0 "u1" "2024-01-01" "beginner" pool3 ∅ 2
    (by decide)).2 (by decide)

/-- C7 (amended: pools without duplicate ids): the selection contains no
repeated item id whenever the pool itself has none.  The original
"for all inputs" form fails on pools that already carry a duplicated
id, see the counterexample. -/
theorem build_today_set_nodup (G : Nat → Nat → Nat)
    (u day bucket : String) (pool : List Row) (att : Finset String)
    (n : Int) (h : (pool.map Row.qid).Nodup) :
    ((build_today_set G u day bucket pool att n).map Row.qid).Nodup := by
  obtain ⟨l1, l2, he, h1, h2⟩ := build_sublists G u day bucket pool att n
  rw [he, List.map_append, List.nodup_append]
  have hfq : ((freshOf pool att).map Row.qid).Nodup :=
    h.sublist ((List.filter_sublist pool).map Row.qid)
  have hsq : ((seenOf pool att).map Row.qid).Nodup :=
    h.sublist ((List.filter_sublist pool).map Row.qid)
  refine ⟨subperm_nodup (subperm_map Row.qid h1) hfq,
    subperm_nodup (subperm_map Row.qid h2) hsq, ?_⟩
  intro q hq1 hq2
  rcases List.mem_map.mp hq1 with ⟨r1, hr1, rfl⟩
  rcases List.mem_map.mp hq2 with ⟨r2, hr2, he2⟩
  have hf := (mem_freshOf_iff.mp (h1.subset hr1)).2
  have hs := (mem_seenOf_iff.mp (h2.subset hr2)).2
  exact hf (he2 ▸ hs)

/-- C7 counterexample: on a pool whose two rows share the id `"x"`, the
selection repeats that id, so the unrestricted claim is false. -/
theorem build_today_set_nodup_cex :
    ¬ ((build_today_set G0 "u2" "2024-06-02" "beginner" dupPool ∅
        2).map Row.qid).Nodup := by
  decide

theorem build_today_set_nodup_witness :
    ((build_today_set G0 "u1" "2024-01-01" "beginner" pool3 ∅ 2).map
      Row.qid).Nodup :=
  build_today_set_nodup G0 "u1" "2024-01-01" "beginner" pool3 ∅ 2
    (by decide)

/-- C8 (amended: zero count): an empty pool yields an empty selection,
and a count of exactly `0` yields an empty selection; the embedding is a
total function, so no input raises.  The original "count ≤ 0" form fails
for negative counts, see the counterexample. -/
theorem build_today_set_degenerate (G : Nat → Nat → Nat)
    (u day bucket : String) (pool : List Row) (att : Finset String)
    (n : Int) :
    (pool = [] → build_today_set G u day bucket pool att n = []) ∧
      (n = 0 → build_today_set G u day bucket pool att n = []) := by
  constructor
  · intro h
    rw [h]
    exact build_today_set_nil G u day bucket att n
  · intro h
    rw [h]
    exact build_today_set_zero G u day bucket pool att

/-- C8 counterexample: at count `-1` on a three-row pool the selection
is not empty, so "count ≤ 0 implies an empty selection" is false. -/
theorem build_today_set_degenerate_cex :
    build_today_set G0 "u4" "2024-06-04" "beginner" pool3 ∅ (-1) ≠ [] := by
  decide

theorem build_today_set_degenerate_witness :
    build_today_set G0 "u5" "2024-06-05" "beginner" [] ∅ 10 = [] :=
  (build_today_set_degenerate G0 "u5" "2024-06-05" "beginner" [] ∅ 10).1
    rfl

/-- C9: the code does not fail fast on a duplicated id — on a pool whose
two rows share the id `"x"` (with nothing attempted and count `2`) it
returns a normal, non-error selection that contains the duplicated id
twice, silently violating the no-duplicates invariant the documentation
promises. -/
theorem build_today_set_dup_ids_silent :
    (build_today_set G0 "u1" "2024-06-01" "beginner" dupPool ∅ 2).map
      Row.qid = ["x", "x"] := by
  decide

/-- C10: `fetch_attempted_qids` keeps exactly the non-empty present qid
values — a string is in the returned set iff it is non-empty and is the
qid of some row — and consequently a pool item whose id is the empty
string is always classified as fresh by the selector's partition. -/
theorem fetch_attempted_qids_correct (data : List AttemptRow) :
    (∀ q : String, q ∈ fetch_attempted_qids data ↔
      q ≠ "" ∧ ∃ r ∈ data, r.qid = some q) ∧
    (∀ (pool : List Row) (r : Row), r ∈ pool → r.qid = "" →
      r ∈ freshOf pool (fetch_attempted_qids data)) := by
  have hmem : ∀ q : String, q ∈ fetch_attempted_qids data ↔
      q ≠ "" ∧ ∃ r ∈ data, r.qid = some q := by
    intro q
    unfold fetch_attempted_qids
    rw [List.mem_toFinset, List.mem_filterMap]
    constructor
    · rintro ⟨r, hr, hq⟩
      rw [List.mem_filter] at hr
      obtain ⟨hrd, htr⟩ := hr
      rw [hq] at htr
      simp only [truthyStrOpt, Bool.not_eq_true', beq_eq_false_iff_ne,
        ne_eq] at htr
      exact ⟨htr, r, hrd, hq⟩
    · rintro ⟨hne, r, hrd, hq⟩
      exact ⟨r, List.mem_filter.mpr ⟨hrd, by
        simp [truthyStrOpt, hq, hne]⟩, hq⟩
  refine ⟨hmem, ?_⟩
  intro pool r hrp hq
  rw [mem_freshOf_iff]
  refine ⟨hrp, fun hmem2 => ?_⟩
  rw [hq] at hmem2
  exact ((hmem "").mp hmem2).1 rfl

theorem fetch_attempted_qids_correct_witness :
    "a" ∈ fetch_attempted_qids [⟨some "a"⟩, ⟨some ""⟩, ⟨none⟩] :=
  ((fetch_attempted_qids_correct [⟨some "a"⟩, ⟨some ""⟩, ⟨none⟩]).1
    "a").mpr ⟨by decide, ⟨some "a"⟩, by decide, rfl⟩
